import Mathlib

set_option maxHeartbeats 1600000
set_option maxRecDepth 4000

/-!
Shallow embedding of the grocery-detection and recipe-generation pipeline of
this repository (src/grocery_detection_utils.py and src/recipe_utils.py).

Python strings are modelled as Lean `String` (lists of characters); Python
floats are modelled as rationals `ℚ`; Python dicts of the detection shape are
modelled as records with optional fields; fallible code returns `Option` or
`Except`.  The external OpenAI collaborators are abstracted as parameters
carrying their outcome (`Except`), exactly at the call sites the source wraps
in try/except.
-/

/-- JSON values as produced by Python `json.loads`.  Numbers are modelled as
rationals (covering both Python ints and floats); objects keep their key/value
pairs in textual order, with later duplicates shadowing earlier ones via
`dictGet`. -/
inductive PyJson where
  | null
  | bool (b : Bool)
  | num (q : ℚ)
  | str (s : String)
  | arr (xs : List PyJson)
  | obj (fields : List (String × PyJson))

/-- One detection dict.  The source builds dicts with exactly the keys
name/confidence/category/description, but downstream code accesses every key
with `.get` and a default, so each field is optional here (`none` models an
absent key).  Present values are modelled at their schema types. -/
structure PyDetection where
  name : Option String
  confidence : Option ℚ
  category : Option String
  description : Option String
deriving DecidableEq

/-- A Python exception, reduced to its display message `str(e)`. -/
structure PyErr where
  msg : String
deriving DecidableEq

/-! ## Character and string helpers (Python str methods, ASCII model) -/

/-- Decide whether `c` is an ASCII decimal digit. -/
def isDigitCh (c : Char) : Bool :=
  decide (48 ≤ c.toNat) && decide (c.toNat ≤ 57)

/-- Python `str.lower()`, modelled on ASCII letters via `Char.toLower`. -/
def pyLower (s : String) : String := String.mk (s.data.map Char.toLower)

/-- Drop leading and trailing whitespace from a character list. -/
def stripList (cs : List Char) : List Char :=
  ((cs.dropWhile Char.isWhitespace).reverse.dropWhile Char.isWhitespace).reverse

/-- Python `str.strip()` with no arguments. -/
def pyStrip (s : String) : String := String.mk (stripList s.data)

/-- Tokenizer behind Python `str.split()` with no arguments: split on runs of
whitespace, discarding empty pieces.  `cur` accumulates the current word in
reverse. -/
def splitWsAux : List Char → List Char → List (List Char)
  | [], cur => if cur.isEmpty then [] else [cur.reverse]
  | c :: cs, cur =>
    if Char.isWhitespace c then
      if cur.isEmpty then splitWsAux cs [] else cur.reverse :: splitWsAux cs []
    else splitWsAux cs (c :: cur)

/-- Python `str.split()` with no arguments. -/
def pySplitWs (s : String) : List String := (splitWsAux s.data []).map String.mk

/-- Python `' '.join(words)`, producing a character list. -/
def joinSpace : List String → List Char
  | [] => []
  | [w] => w.data
  | w :: ws => w.data ++ ' ' :: joinSpace ws

/-- Python `needle in hay` on strings: contiguous-substring test. -/
def containsSub (needle hay : List Char) : Bool :=
  hay.tails.any (fun t => needle.isPrefixOf t)

/-- Python `str.find(ch)` on a character list: index of the first occurrence,
`-1` when absent. -/
def pyFindAux (c : Char) : List Char → Int
  | [] => -1
  | x :: xs =>
    if x = c then 0
    else
      let r := pyFindAux c xs
      if r = -1 then -1 else r + 1

/-- Python `content.find(c)`. -/
def pyFind (c : Char) (s : List Char) : Int := pyFindAux c s

/-- Python `content.rfind(c)`: index of the last occurrence, `-1` when
absent. -/
def pyRFind (c : Char) (s : List Char) : Int :=
  let r := pyFindAux c s.reverse
  if r = -1 then -1 else (s.length : Int) - 1 - r

/-- Python slice `s[a:b]` for non-negative bounds. -/
def pySlice (cs : List Char) (a b : Nat) : List Char := (cs.take b).drop a

/-! ## JSON parser (Python `json.loads` on the standard grammar)

The recursive-descent parser is fuelled so that every definition is structural
and kernel-reducible.  Model limitations, none of which the theorems below
depend on: `\uXXXX` escapes are mapped through `Char.ofNat` without surrogate
pairing, and the nonstandard `NaN`/`Infinity` literals Python accepts are
rejected. -/

/-- Skip JSON interword whitespace. -/
def skipWs : List Char → List Char
  | [] => []
  | c :: cs => if c = ' ' ∨ c = '\t' ∨ c = '\n' ∨ c = '\r' then skipWs cs else c :: cs

/-- Value of a hexadecimal digit. -/
def hexVal (c : Char) : Option Nat :=
  if isDigitCh c then some (c.toNat - 48)
  else if decide ('a' ≤ c) && decide (c ≤ 'f') then some (c.toNat - 87)
  else if decide ('A' ≤ c) && decide (c ≤ 'F') then some (c.toNat - 55)
  else none

/-- Translate a JSON backslash escape character. -/
def escapeChar (e : Char) : Option Char :=
  if e = '"' then some '"'
  else if e = '\\' then some '\\'
  else if e = '/' then some '/'
  else if e = 'b' then some (Char.ofNat 8)
  else if e = 'f' then some (Char.ofNat 12)
  else if e = 'n' then some '\n'
  else if e = 'r' then some '\r'
  else if e = 't' then some '\t'
  else none

/-- Parse the body of a JSON string after its opening quote; returns the
decoded characters and the input following the closing quote. -/
def parseStrBody : List Char → Option (List Char × List Char)
  | [] => none
  | '"' :: rest => some ([], rest)
  | '\\' :: 'u' :: h1 :: h2 :: h3 :: h4 :: rest => do
    let a ← hexVal h1
    let b ← hexVal h2
    let c ← hexVal h3
    let d ← hexVal h4
    let p ← parseStrBody rest
    some (Char.ofNat (((a * 16 + b) * 16 + c) * 16 + d) :: p.1, p.2)
  | '\\' :: e :: rest => do
    let c ← escapeChar e
    let p ← parseStrBody rest
    some (c :: p.1, p.2)
  | c :: rest =>
    if c.toNat < 32 then none
    else do
      let p ← parseStrBody rest
      some (c :: p.1, p.2)

/-- Digit run to a natural number. -/
def digitsToNat (ds : List Char) : Nat :=
  ds.foldl (fun n c => 10 * n + (c.toNat - 48)) 0

/-- Parse an optional fraction part, returning the fraction digits' value and
count. -/
def parseFrac : List Char → Option (Nat × Nat × List Char)
  | '.' :: rest =>
    let p := rest.span isDigitCh
    if p.1.isEmpty then none
    else some (digitsToNat p.1, p.1.length, p.2)
  | cs => some (0, 0, cs)

/-- Parse an optional exponent part (shared by the JSON grammar and Python
float literals). -/
def parseExp : List Char → Option (Int × List Char)
  | c :: rest =>
    if c = 'e' ∨ c = 'E' then
      let sr : Bool × List Char :=
        match rest with
        | '+' :: r => (false, r)
        | '-' :: r => (true, r)
        | _ => (false, rest)
      let p := sr.2.span isDigitCh
      if p.1.isEmpty then none
      else some ((if sr.1 then -(digitsToNat p.1 : Int) else (digitsToNat p.1 : Int)), p.2)
    else some (0, c :: rest)
  | [] => some (0, [])

/-- Assemble a decimal literal `sign, intpart, fracdigits (of length flen),
exponent` into a rational, using only kernel-computable `Nat`/`Int`
arithmetic and `mkRat`. -/
def decimalToRat (neg : Bool) (i fnum flen : Nat) (ex : Int) : ℚ :=
  let n : Nat := i * 10 ^ flen + fnum
  let sn : Int := if neg then -(n : Int) else (n : Int)
  if 0 ≤ ex then mkRat (sn * (10 : Int) ^ ex.toNat) (10 ^ flen)
  else mkRat sn (10 ^ flen * 10 ^ (-ex).toNat)

/-- Parse a JSON number (`-?(0|[1-9][0-9]*)(\.[0-9]+)?([eE][+-]?[0-9]+)?`). -/
def parseJsonNumber (cs : List Char) : Option (ℚ × List Char) := do
  let sg : Bool × List Char :=
    match cs with
    | '-' :: rest => (true, rest)
    | _ => (false, cs)
  let ip : Option (Nat × List Char) :=
    match sg.2 with
    | '0' :: rest => some (0, rest)
    | c :: rest =>
      if isDigitCh c then
        let p := rest.span isDigitCh
        some (digitsToNat (c :: p.1), p.2)
      else none
    | [] => none
  let (i, cs2) ← ip
  let (fnum, flen, cs3) ← parseFrac cs2
  let (ex, cs4) ← parseExp cs3
  some (decimalToRat sg.1 i fnum flen ex, cs4)

mutual

/-- Parse one JSON value; `fuel` dominates the recursion depth. -/
def parseVal : Nat → List Char → Option (PyJson × List Char)
  | 0, _ => none
  | fuel+1, cs =>
    match skipWs cs with
    | [] => none
    | 'n' :: 'u' :: 'l' :: 'l' :: rest => some (PyJson.null, rest)
    | 't' :: 'r' :: 'u' :: 'e' :: rest => some (PyJson.bool true, rest)
    | 'f' :: 'a' :: 'l' :: 's' :: 'e' :: rest => some (PyJson.bool false, rest)
    | '"' :: rest => (parseStrBody rest).map (fun p => (PyJson.str (String.mk p.1), p.2))
    | '[' :: rest =>
      match skipWs rest with
      | ']' :: rest2 => some (PyJson.arr [], rest2)
      | _ => (parseArrItems fuel rest).map (fun p => (PyJson.arr p.1, p.2))
    | '\x7b' :: rest =>
      match skipWs rest with
      | '\x7d' :: rest2 => some (PyJson.obj [], rest2)
      | _ => (parseObjItems fuel rest).map (fun p => (PyJson.obj p.1, p.2))
    | c :: rest =>
      if c = '-' ∨ isDigitCh c then
        (parseJsonNumber (c :: rest)).map (fun p => (PyJson.num p.1, p.2))
      else none

/-- Parse the comma-separated items of a nonempty JSON array, including the
closing bracket. -/
def parseArrItems : Nat → List Char → Option (List PyJson × List Char)
  | 0, _ => none
  | fuel+1, cs => do
    let (v, rest) ← parseVal fuel cs
    match skipWs rest with
    | ',' :: rest2 => do
      let (vs, rest3) ← parseArrItems fuel rest2
      some (v :: vs, rest3)
    | ']' :: rest2 => some ([v], rest2)
    | _ => none

/-- Parse the members of a nonempty JSON object, including the closing
brace. -/
def parseObjItems : Nat → List Char → Option (List (String × PyJson) × List Char)
  | 0, _ => none
  | fuel+1, cs =>
    match skipWs cs with
    | '"' :: rest => do
      let (k, rest1) ← parseStrBody rest
      match skipWs rest1 with
      | ':' :: rest2 => do
        let (v, rest3) ← parseVal fuel rest2
        match skipWs rest3 with
        | ',' :: rest4 => do
          let (kvs, rest5) ← parseObjItems fuel rest4
          some ((String.mk k, v) :: kvs, rest5)
        | '\x7d' :: rest4 => some ([(String.mk k, v)], rest4)
        | _ => none
      | _ => none
    | _ => none

end

/-- Python `json.loads`: parse one value and insist the remainder is
whitespace. -/
def jsonLoads (s : String) : Option PyJson :=
  match parseVal (2 * s.data.length + 2) s.data with
  | some (v, rest) => if (skipWs rest).isEmpty then some v else none
  | none => none

/-! ## The detection-response normalizer

Embedding of `GroceryObjectDetector._parse_vision_response` and
`_parse_text_response` (src/grocery_detection_utils.py lines 206-267). -/

/-- Python `dict.get(key)` for the dicts built by the JSON parser: later
duplicate keys shadow earlier ones, as in `json.loads`. -/
def dictGet (fields : List (String × PyJson)) (key : String) : Option PyJson :=
  match fields with
  | [] => none
  | (k, v) :: rest =>
    match dictGet rest key with
    | some r => some r
    | none => if k = key then some v else none

/-- Python `float(x)` on a string argument: optional surrounding whitespace
and sign, then decimal digits with optional point and exponent.  The special
`inf`/`nan` spellings and digit underscores Python also accepts are outside
the model and map to `none`. -/
def pyFloatOfString (s : String) : Option ℚ :=
  let cs := stripList s.data
  let sg : Bool × List Char :=
    match cs with
    | '-' :: r => (true, r)
    | '+' :: r => (false, r)
    | _ => (false, cs)
  let ipair := sg.2.span isDigitCh
  let fpair : List Char × List Char :=
    match ipair.2 with
    | '.' :: r => r.span isDigitCh
    | _ => ([], ipair.2)
  if ipair.1.isEmpty ∧ fpair.1.isEmpty then none
  else
    match parseExp fpair.2 with
    | none => none
    | some (ex, rest) =>
      if rest.isEmpty then
        some (decimalToRat sg.1 (digitsToNat ipair.1) (digitsToNat fpair.1) fpair.1.length ex)
      else none

/-- Python `float(x)` on a JSON value.  `bool` is an `int` subclass in Python,
so booleans coerce to 0.0/1.0; `None`, lists and dicts raise `TypeError`,
modelled as `none`. -/
def pyFloat : PyJson → Option ℚ
  | PyJson.num q => some q
  | PyJson.bool b => some (if b then 1 else 0)
  | PyJson.str s => pyFloatOfString s
  | _ => none

/-- Read a string-valued key with a default.  A present value of a non-string
type is outside the typed `PyDetection` model and maps to `none`. -/
def getStrField (fields : List (String × PyJson)) (key : String) (dflt : String) :
    Option String :=
  match dictGet fields key with
  | none => some dflt
  | some (PyJson.str s) => some s
  | some _ => none

/-- One iteration of the normalization loop (lines 230-238).  `some none`
means the element is skipped (not a dict with a `name` key); `some (some d)`
means the coerced record is appended; the outer `none` means the iteration
raised — in Python `float()` raising on a non-coercible confidence — which
the enclosing `except Exception` turns into an overall empty result.
Elements whose name/category/description is present at a non-string type are
outside the typed model and also map to the outer `none`. -/
def normalizeElement (j : PyJson) : Option (Option PyDetection) :=
  match j with
  | PyJson.obj fields =>
    match dictGet fields "name" with
    | some (PyJson.str nm) =>
      match pyFloat ((dictGet fields "confidence").getD (PyJson.num (mkRat 1 2))),
            getStrField fields "category" "other",
            getStrField fields "description" nm with
      | some conf, some cat, some desc => some (some ⟨some nm, some conf, some cat, some desc⟩)
      | _, _, _ => none
    | some _ => none
    | none => some none
  | _ => some none

/-- The whole normalization loop (lines 229-238): a raised iteration aborts
the loop. -/
def normalizeLoop : List PyJson → Option (List PyDetection)
  | [] => some []
  | j :: js =>
    match normalizeElement j with
    | none => none
    | some none => normalizeLoop js
    | some (some d) => (normalizeLoop js).map (d :: ·)

/-- `_parse_text_response` (lines 253-267): the fallback parser deliberately
returns no detections. -/
def parse_text_response (_content : String) : List PyDetection := []

/-- Bracket extraction of `_parse_vision_response` (lines 221-225): the slice
from the first `[` to just past the last `]`.  Note `json_end` is
`rfind(...) + 1`, so the `json_end != -1` guard of the source is vacuous: a
string containing `[` but no `]` yields the (empty) slice up to index 0. -/
def visionExtract (content : String) : Option String :=
  let cs := content.data
  let json_start := pyFind '[' cs
  let json_end := pyRFind ']' cs + 1
  if json_start ≠ -1 ∧ json_end ≠ -1 then
    some (String.mk (pySlice cs json_start.toNat json_end.toNat))
  else none

/-- `_parse_vision_response` (lines 206-251).  A `json.loads` failure takes
the `except json.JSONDecodeError` path into `_parse_text_response`; a raised
normalization iteration takes the `except Exception` path to `[]`; a parsed
non-array value (unreachable, since a successful parse of a slice starting at
`[` is an array) would make the loop iterate over a non-list, yielding `[]`
as well. -/
def parse_vision_response (content : String) : List PyDetection :=
  match visionExtract content with
  | some json_str =>
    match jsonLoads json_str with
    | some (PyJson.arr detections) => (normalizeLoop detections).getD []
    | some _ => []
    | none => parse_text_response content
  | none => parse_text_response content

/-! ## Confidence filter and detection entry point

Embedding of the tail of `detect_grocery_items` (lines 193-200) and of
`detect_objects_detectron2` (src/recipe_utils.py lines 100-137).  The OpenAI
call itself is abstracted: its outcome (raised, or returned response content)
is a parameter. -/

/-- The confidence filter (lines 194-197): `detection.get('confidence', 0) >=
self.confidence_threshold`. -/
def filter_by_confidence (detections : List PyDetection) (confidence_threshold : ℚ) :
    List PyDetection :=
  detections.filter (fun d => decide (d.confidence.getD 0 ≥ confidence_threshold))

/-- `detect_grocery_items` after the API call; the try/except returns `[]`
when the call raised. -/
def detect_grocery_items (vision_response : Except PyErr String)
    (confidence_threshold : ℚ) : List PyDetection :=
  match vision_response with
  | Except.error _ => []
  | Except.ok content => filter_by_confidence (parse_vision_response content) confidence_threshold

/-! ## The ingredient suggestion ranker

Embedding of `get_ingredient_suggestions`, `_normalize_ingredient_name`,
`_is_valid_ingredient` and `_get_ingredient_priority`
(src/grocery_detection_utils.py lines 269-417). -/

/-- The `remove_words` stop-list of `_normalize_ingredient_name`. -/
def remove_words : List String :=
  ["fresh", "organic", "bottle", "jar", "can", "package", "container",
   "bag", "box", "carton", "tube", "frozen", "canned", "dried"]

/-- The `ingredient_mappings` dict of `_normalize_ingredient_name`, embedded
as its `.get(clean_name, clean_name)` lookup function. -/
def apply_ingredient_mappings (clean_name : String) : String :=
  if clean_name = "bell pepper" then "bell peppers"
  else if clean_name = "red pepper" then "red bell pepper"
  else if clean_name = "green pepper" then "green bell pepper"
  else if clean_name = "yellow pepper" then "yellow bell pepper"
  else if clean_name = "soy sauce" then "soy sauce"
  else if clean_name = "olive oil" then "olive oil"
  else if clean_name = "cooking oil" then "cooking oil"
  else if clean_name = "vegetable oil" then "vegetable oil"
  else clean_name

/-- `_normalize_ingredient_name` (lines 311-348). -/
def normalize_ingredient_name (name : String) : String :=
  let words := pySplitWs (pyLower name)
  let filtered_words := words.filter (fun w => decide (w ∉ remove_words))
  let clean_name := pyStrip (String.mk (joinSpace filtered_words))
  apply_ingredient_mappings clean_name

/-- The `invalid_terms` set of `_is_valid_ingredient`. -/
def invalid_terms : List String :=
  ["unknown", "other", "mixed", "variety", "assorted", "generic",
   "food", "item", "product", "thing", "stuff", "container",
   "package", "wrapper", "label", "brand"]

/-- The `food_categories` set of `_is_valid_ingredient`. -/
def food_categories : List String :=
  ["vegetable", "fruit", "protein", "dairy", "pantry",
   "condiment", "spice", "herb", "grain", "legume"]

/-- The food-related substrings of `_is_valid_ingredient`. -/
def food_substrings : List String :=
  ["oil", "sauce", "spice", "herb", "salt", "pepper", "vinegar"]

/-- `_is_valid_ingredient` (lines 350-385). -/
def is_valid_ingredient (name category : String) : Bool :=
  if name.length < 2 then false
  else if name ∈ invalid_terms then false
  else decide (category ∈ food_categories)
    || food_substrings.any (fun w => containsSub w.data name.data)

/-- The `high_priority` set of `_get_ingredient_priority`. -/
def high_priority : List String :=
  ["onion", "garlic", "tomato", "potato", "carrot", "bell pepper",
   "olive oil", "salt", "pepper", "eggs", "butter", "cheese"]

/-- The `medium_priority` set of `_get_ingredient_priority`. -/
def medium_priority : List String :=
  ["chicken", "beef", "fish", "rice", "pasta", "bread", "milk",
   "lettuce", "spinach", "broccoli", "lemon", "lime"]

/-- `_get_ingredient_priority` (lines 387-417). -/
def get_ingredient_priority (ingredient : String) : Nat :=
  if ingredient ∈ high_priority then 1
  else if ingredient ∈ medium_priority then 2
  else 3

/-- The accumulation loop of `get_ingredient_suggestions` (lines 286-303):
lowercase and strip each name, skip empties, normalize, keep valid unseen
names in first-occurrence order.  `seen` is the `seen_ingredients` set. -/
def suggestLoop : List PyDetection → List String → List String
  | [], _ => []
  | detection :: rest, seen =>
    let item_name := pyStrip (pyLower (detection.name.getD ""))
    let category := pyLower (detection.category.getD "other")
    if item_name = "" then suggestLoop rest seen
    else
      let clean_name := normalize_ingredient_name item_name
      if is_valid_ingredient clean_name category then
        if clean_name ∈ seen then suggestLoop rest seen
        else clean_name :: suggestLoop rest (clean_name :: seen)
      else suggestLoop rest seen

/-- The priority order the ranker sorts by. -/
def priorityLe (a b : String) : Prop :=
  get_ingredient_priority a ≤ get_ingredient_priority b

instance : DecidableRel priorityLe := fun a b =>
  inferInstanceAs (Decidable (get_ingredient_priority a ≤ get_ingredient_priority b))

/-- `get_ingredient_suggestions` (lines 269-309).  Python's in-place
`list.sort(key=...)` is the stable ascending sort by key, which is exactly
`List.insertionSort` on the key order (stable sorting by a key determines the
output list uniquely, so the embedding is extensionally faithful to
Timsort). -/
def get_ingredient_suggestions (detections : List PyDetection) : List String :=
  if detections.isEmpty then []
  else ((suggestLoop detections []).insertionSort priorityLe).take 15

/-! ## Recipe prompt formatter and invoker

Embedding of `generate_recipes_from_prompt` and the pure face of
`load_recipe_prompt` and `detect_objects_detectron2`
(src/recipe_utils.py).  The two effectful collaborators — the template read
and the chat-completion call — are parameters carrying their outcome. -/

/-- Python `str.format` field substitution for a template with the named
fields `ingredients` and `mood`.  Any other field name raises
(`KeyError`/`IndexError`), modelled as `none`. -/
def fmtLookup (ing mood : String) (field : List Char) : Option String :=
  if field = "ingredients".data then some ing
  else if field = "mood".data then some mood
  else none

/-- Scanner behind `str.format`: `\x7b\x7b` and `\x7d\x7d` are literal braces,
`\x7bfield\x7d` substitutes, a lone closing brace or an unterminated field
raises (`none`).  Format specs (`:`-suffixes) are outside the model; `fuel`
exceeds the input length so every step is structural. -/
def pyFormatAux (ing mood : String) : Nat → List Char → Option (List Char)
  | 0, _ => none
  | _+1, [] => some []
  | fuel+1, c :: cs =>
    if c = '\x7b' then
      match cs with
      | '\x7b' :: cs2 => (pyFormatAux ing mood fuel cs2).map ('\x7b' :: ·)
      | _ =>
        let p := cs.span (fun d => decide (d ≠ '\x7d'))
        match p.2 with
        | '\x7d' :: cs2 =>
          match fmtLookup ing mood p.1 with
          | some v => (pyFormatAux ing mood fuel cs2).map (v.data ++ ·)
          | none => none
        | _ => none
    else if c = '\x7d' then
      match cs with
      | '\x7d' :: cs2 => (pyFormatAux ing mood fuel cs2).map ('\x7d' :: ·)
      | _ => none
    else (pyFormatAux ing mood fuel cs).map (c :: ·)

/-- `prompt_template.format(ingredients=..., mood=...)`. -/
def pyFormat (template ing mood : String) : Option String :=
  (pyFormatAux ing mood (template.data.length + 1) template.data).map String.mk

/-- The error string returned by the `except` branch of
`generate_recipes_from_prompt` (lines 215-218). -/
def error_return_string (e : PyErr) : String :=
  "**Error:** Error generating recipes: " ++ e.msg ++
    "\n\nPlease try again or check your OpenAI API configuration."

/-- The fixed header prefixed to a successful generation (line 213). -/
def recipes_header : String := "**Your AI-Generated Recipes:**\n\n"

/-- `generate_recipes_from_prompt` (lines 140-218).  `load_recipe_prompt`
carries the outcome of reading `prompts/recipe_prompt.txt` (the function at
lines 33-56 re-raises any reading error, so its outcome is exactly the file
read's); `chat_completion` carries the outcome of the OpenAI call, whose
content is `Optional[str]`.  Everything runs inside one `try`, and the
`except Exception` branch returns `error_return_string`.  A `str.format`
failure also lands there; the message text of that sub-case is not modelled
precisely (Python would render the `KeyError`/`ValueError`). -/
def generate_recipes_from_prompt (ingredients : List String) (mood : String)
    (load_recipe_prompt : Except PyErr String)
    (chat_completion : String → Except PyErr (Option String)) : String :=
  let ingredient_list := String.intercalate ", " ingredients
  match load_recipe_prompt with
  | Except.error e => error_return_string e
  | Except.ok prompt_template =>
    match pyFormat prompt_template ingredient_list mood with
    | none => error_return_string ⟨"KeyError"⟩
    | some formatted_prompt =>
      match chat_completion formatted_prompt with
      | Except.error e => error_return_string e
      | Except.ok content => recipes_header ++ pyStrip (content.getD "")

/-- The default confidence threshold 0.4 used by `detect_objects_detectron2`
when constructing the detector. -/
def default_confidence_threshold : ℚ := mkRat 2 5

/-- `detect_objects_detectron2` (lines 100-137) after abstracting the image
upload and OpenAI call into the response outcome: suggestions from the
filtered detections, truncated to the top 10; the surrounding try/except
returns `[]` when the pipeline raised. -/
def detect_objects_detectron2 (vision_response : Except PyErr String) : List String :=
  (get_ingredient_suggestions
    (detect_grocery_items vision_response default_confidence_threshold)).take 10

/-! ## Helper lemmas -/

/-- Lowercasing a character is idempotent. -/
theorem toLower_toLower (c : Char) : c.toLower.toLower = c.toLower := by
  by_cases h : c.toNat ≥ 65 ∧ c.toNat ≤ 90
  · have e : c.toLower = Char.ofNat (c.toNat + 32) := by
      simp only [Char.toLower, h, and_self, if_true]
    rw [e]
    obtain ⟨h1, h2⟩ := h
    revert h1 h2
    generalize c.toNat = n
    intro h1 h2
    interval_cases n <;> decide
  · have e : c.toLower = c := by simp only [Char.toLower, h, if_false]
    rw [e, e]

/-- Every character of a lowercased character list is a fixed point of
`Char.toLower`. -/
theorem mem_map_toLower_fixed {l : List Char} {c : Char}
    (hc : c ∈ l.map Char.toLower) : c.toLower = c := by
  obtain ⟨a, -, rfl⟩ := List.mem_map.mp hc
  exact toLower_toLower a

/-- Mapping `toLower` over an all-fixed character list changes nothing. -/
theorem map_toLower_eq_self {l : List Char} (h : ∀ c ∈ l, c.toLower = c) :
    l.map Char.toLower = l := by
  induction l with
  | nil => rfl
  | cons x xs ih =>
    simp only [List.map_cons]
    rw [h x (List.mem_cons_self x xs), ih (fun c hc => h c (List.mem_cons_of_mem _ hc))]

/-- A string all of whose characters are `toLower`-fixed is `pyLower`-fixed. -/
theorem pyLower_eq_self_of_fixed {s : String} (h : ∀ c ∈ s.data, c.toLower = c) :
    pyLower s = s := by
  cases s with
  | mk d => exact congrArg String.mk (map_toLower_eq_self h)

/-- Unfolding equation of `splitWsAux` at nil. -/
theorem splitWsAux_nil (cur : List Char) :
    splitWsAux [] cur = if cur.isEmpty then [] else [cur.reverse] := rfl

/-- Unfolding equation of `splitWsAux` at cons. -/
theorem splitWsAux_cons (c : Char) (cs cur : List Char) :
    splitWsAux (c :: cs) cur =
      if Char.isWhitespace c then
        if cur.isEmpty then splitWsAux cs [] else cur.reverse :: splitWsAux cs []
      else splitWsAux cs (c :: cur) := rfl

/-- Characters of the words produced by `splitWsAux` come from the input or
the accumulator. -/
theorem splitWsAux_subset :
    ∀ (cs cur w : List Char), w ∈ splitWsAux cs cur → ∀ c ∈ w, c ∈ cs ∨ c ∈ cur := by
  intro cs
  induction cs with
  | nil =>
    intro cur w hw c hc
    rw [splitWsAux_nil] at hw
    by_cases hcur : cur.isEmpty = true
    · rw [if_pos hcur] at hw
      simp at hw
    · rw [if_neg hcur] at hw
      rcases List.mem_singleton.mp hw with rfl
      exact Or.inr (List.mem_reverse.mp hc)
  | cons x xs ih =>
    intro cur w hw c hc
    rw [splitWsAux_cons] at hw
    by_cases hx : Char.isWhitespace x = true
    · rw [if_pos hx] at hw
      by_cases hcur : cur.isEmpty = true
      · rw [if_pos hcur] at hw
        rcases ih [] w hw c hc with h | h
        · exact Or.inl (List.mem_cons_of_mem _ h)
        · simp at h
      · rw [if_neg hcur] at hw
        rcases List.mem_cons.mp hw with rfl | hw'
        · exact Or.inr (List.mem_reverse.mp hc)
        · rcases ih [] w hw' c hc with h | h
          · exact Or.inl (List.mem_cons_of_mem _ h)
          · simp at h
    · rw [if_neg hx] at hw
      rcases ih (x :: cur) w hw c hc with h | h
      · exact Or.inl (List.mem_cons_of_mem _ h)
      · rcases List.mem_cons.mp h with rfl | h
        · exact Or.inl (List.mem_cons_self c xs)
        · exact Or.inr h

/-- Characters of `joinSpace ws` are spaces or characters of the words. -/
theorem joinSpace_subset :
    ∀ (ws : List String) (c : Char), c ∈ joinSpace ws → c = ' ' ∨ ∃ w ∈ ws, c ∈ w.data := by
  intro ws
  induction ws with
  | nil => intro c hc; simp [joinSpace] at hc
  | cons w tail ih =>
    intro c hc
    cases tail with
    | nil =>
      simp only [joinSpace] at hc
      exact Or.inr ⟨w, List.mem_singleton.mpr rfl, hc⟩
    | cons w2 t2 =>
      have he : joinSpace (w :: w2 :: t2) = w.data ++ ' ' :: joinSpace (w2 :: t2) := rfl
      rw [he] at hc
      rcases List.mem_append.mp hc with h | h
      · exact Or.inr ⟨w, List.mem_cons_self w (w2 :: t2), h⟩
      · rcases List.mem_cons.mp h with rfl | h
        · exact Or.inl rfl
        · rcases ih c h with h' | ⟨w', hw', hcw'⟩
          · exact Or.inl h'
          · exact Or.inr ⟨w', List.mem_cons_of_mem _ hw', hcw'⟩

/-- Characters survive `stripList` only if they were in the input. -/
theorem stripList_subset {cs : List Char} {c : Char} (h : c ∈ stripList cs) : c ∈ cs := by
  unfold stripList at h
  have h1 := List.mem_reverse.mp h
  have h2 := (List.dropWhile_sublist _).subset h1
  have h3 := List.mem_reverse.mp h2
  exact (List.dropWhile_sublist _).subset h3

/-- The synonym table maps `pyLower`-fixed strings to `pyLower`-fixed
strings. -/
theorem apply_mappings_fixed {s : String} (h : pyLower s = s) :
    pyLower (apply_ingredient_mappings s) = apply_ingredient_mappings s := by
  unfold apply_ingredient_mappings
  split_ifs <;> first | decide | exact h

/-- The cleaned name built inside `normalize_ingredient_name` is
`pyLower`-fixed. -/
theorem clean_name_fixed (name : String) :
    pyLower (pyStrip (String.mk (joinSpace
      ((pySplitWs (pyLower name)).filter (fun w => decide (w ∉ remove_words)))))) =
    pyStrip (String.mk (joinSpace
      ((pySplitWs (pyLower name)).filter (fun w => decide (w ∉ remove_words))))) := by
  apply pyLower_eq_self_of_fixed
  intro c hc
  have hc' : c ∈ stripList (joinSpace
      ((pySplitWs (pyLower name)).filter (fun w => decide (w ∉ remove_words)))) := hc
  have hj := stripList_subset hc'
  rcases joinSpace_subset _ c hj with rfl | ⟨w, hw, hcw⟩
  · decide
  · have hw' : w ∈ pySplitWs (pyLower name) := (List.mem_filter.mp hw).1
    obtain ⟨wl, hwl, rfl⟩ := List.mem_map.mp hw'
    rcases splitWsAux_subset _ _ _ hwl c hcw with hmem | hmem
    · exact mem_map_toLower_fixed hmem
    · simp at hmem

/-- Every output of `normalize_ingredient_name` is `pyLower`-fixed. -/
theorem normalize_lower_fixed (name : String) :
    pyLower (normalize_ingredient_name name) = normalize_ingredient_name name := by
  unfold normalize_ingredient_name
  exact apply_mappings_fixed (clean_name_fixed name)

/-- Unfolding equation of `suggestLoop` at nil. -/
theorem suggestLoop_nil (seen : List String) : suggestLoop [] seen = [] := rfl

/-- Unfolding equation of `suggestLoop` at cons, with the lets expanded. -/
theorem suggestLoop_cons (d : PyDetection) (rest : List PyDetection) (seen : List String) :
    suggestLoop (d :: rest) seen =
      if pyStrip (pyLower (d.name.getD "")) = "" then suggestLoop rest seen
      else if is_valid_ingredient (normalize_ingredient_name (pyStrip (pyLower (d.name.getD ""))))
          (pyLower (d.category.getD "other")) then
        if normalize_ingredient_name (pyStrip (pyLower (d.name.getD ""))) ∈ seen then
          suggestLoop rest seen
        else
          normalize_ingredient_name (pyStrip (pyLower (d.name.getD ""))) ::
            suggestLoop rest (normalize_ingredient_name (pyStrip (pyLower (d.name.getD ""))) :: seen)
      else suggestLoop rest seen := rfl

/-- Every name produced by the accumulation loop comes from some input
detection, as the normalization of its lowercased stripped name, and passed
the validity filter against the detection's lowercased category. -/
theorem suggestLoop_mem :
    ∀ (detections : List PyDetection) (seen : List String) (x : String),
      x ∈ suggestLoop detections seen →
      ∃ d ∈ detections,
        x = normalize_ingredient_name (pyStrip (pyLower (d.name.getD ""))) ∧
        is_valid_ingredient x (pyLower (d.category.getD "other")) = true := by
  intro detections
  induction detections with
  | nil =>
    intro seen x hx
    rw [suggestLoop_nil] at hx
    simp at hx
  | cons d rest ih =>
    intro seen x hx
    rw [suggestLoop_cons] at hx
    by_cases h1 : pyStrip (pyLower (d.name.getD "")) = ""
    · rw [if_pos h1] at hx
      obtain ⟨d', hd', he, hv⟩ := ih seen x hx
      exact ⟨d', List.mem_cons_of_mem _ hd', he, hv⟩
    · rw [if_neg h1] at hx
      by_cases h2 : is_valid_ingredient
          (normalize_ingredient_name (pyStrip (pyLower (d.name.getD ""))))
          (pyLower (d.category.getD "other")) = true
      · rw [if_pos h2] at hx
        by_cases h3 : normalize_ingredient_name (pyStrip (pyLower (d.name.getD ""))) ∈ seen
        · rw [if_pos h3] at hx
          obtain ⟨d', hd', he, hv⟩ := ih seen x hx
          exact ⟨d', List.mem_cons_of_mem _ hd', he, hv⟩
        · rw [if_neg h3] at hx
          rcases List.mem_cons.mp hx with rfl | hx'
          · exact ⟨d, List.mem_cons_self d rest, rfl, h2⟩
          · obtain ⟨d', hd', he, hv⟩ := ih _ x hx'
            exact ⟨d', List.mem_cons_of_mem _ hd', he, hv⟩
      · rw [if_neg h2] at hx
        obtain ⟨d', hd', he, hv⟩ := ih seen x hx
        exact ⟨d', List.mem_cons_of_mem _ hd', he, hv⟩

/-- The accumulation loop produces distinct names, none of which was already
seen. -/
theorem suggestLoop_nodup_aux :
    ∀ (detections : List PyDetection) (seen : List String),
      (suggestLoop detections seen).Nodup ∧ ∀ x ∈ seen, x ∉ suggestLoop detections seen := by
  intro detections
  induction detections with
  | nil =>
    intro seen
    rw [suggestLoop_nil]
    exact ⟨List.nodup_nil, by simp⟩
  | cons d rest ih =>
    intro seen
    rw [suggestLoop_cons]
    by_cases h1 : pyStrip (pyLower (d.name.getD "")) = ""
    · rw [if_pos h1]; exact ih seen
    · rw [if_neg h1]
      by_cases h2 : is_valid_ingredient
          (normalize_ingredient_name (pyStrip (pyLower (d.name.getD ""))))
          (pyLower (d.category.getD "other")) = true
      · rw [if_pos h2]
        by_cases h3 : normalize_ingredient_name (pyStrip (pyLower (d.name.getD ""))) ∈ seen
        · rw [if_pos h3]; exact ih seen
        · rw [if_neg h3]
          obtain ⟨hnd, hdisj⟩ :=
            ih (normalize_ingredient_name (pyStrip (pyLower (d.name.getD ""))) :: seen)
          refine ⟨List.nodup_cons.mpr ⟨hdisj _ (List.mem_cons_self _ _), hnd⟩, ?_⟩
          intro x hxseen hmem
          rcases List.mem_cons.mp hmem with rfl | hmem'
          · exact h3 hxseen
          · exact hdisj x (List.mem_cons_of_mem _ hxseen) hmem'
      · rw [if_neg h2]; exact ih seen

/-- In a list containing two distinct elements, one of the two pair orders is
a sublist. -/
theorem pair_sublist_total {α : Type} {l : List α} {a b : α}
    (ha : a ∈ l) (hb : b ∈ l) (hne : a ≠ b) :
    List.Sublist [a, b] l ∨ List.Sublist [b, a] l := by
  induction l with
  | nil => simp at ha
  | cons x xs ih =>
    rcases List.mem_cons.mp ha with rfl | ha'
    · have hb' : b ∈ xs := by
        rcases List.mem_cons.mp hb with rfl | h
        · exact absurd rfl hne
        · exact h
      exact Or.inl (List.Sublist.cons₂ _ (List.singleton_sublist.mpr hb'))
    · rcases List.mem_cons.mp hb with rfl | hb'
      · exact Or.inr (List.Sublist.cons₂ _ (List.singleton_sublist.mpr ha'))
      · rcases ih ha' hb' with h | h
        · exact Or.inl (h.cons _)
        · exact Or.inr (h.cons _)

/-- In a duplicate-free list, the two pair orders cannot both be sublists for
distinct elements. -/
theorem pair_sublist_antisymm {α : Type} :
    ∀ {l : List α} {a b : α}, l.Nodup →
      List.Sublist [a, b] l → List.Sublist [b, a] l → a = b := by
  intro l
  induction l with
  | nil => intro a b _ h1 _; cases h1
  | cons x xs ih =>
    intro a b hl h1 h2
    obtain ⟨hx, hxs⟩ := List.nodup_cons.mp hl
    cases h1 with
    | cons _ h1' =>
      cases h2 with
      | cons _ h2' => exact ih hxs h1' h2'
      | cons₂ _ h2' =>
        exact absurd (h1'.subset (by simp)) hx
    | cons₂ _ h1' =>
      cases h2 with
      | cons _ h2' =>
        exact absurd (h2'.subset (by simp)) hx
      | cons₂ _ h2' => rfl

/-- Unfolding equation of `pyFindAux` at cons. -/
theorem pyFindAux_cons (c x : Char) (xs : List Char) :
    pyFindAux c (x :: xs) =
      if x = c then 0
      else if pyFindAux c xs = -1 then -1 else pyFindAux c xs + 1 := rfl

/-- A missing character makes `pyFindAux` return -1. -/
theorem pyFindAux_eq_neg_one {c : Char} :
    ∀ {l : List Char}, c ∉ l → pyFindAux c l = -1 := by
  intro l
  induction l with
  | nil => intro _; rfl
  | cons x xs ih =>
    intro h
    have hx : ¬ x = c := fun e => h (e ▸ List.mem_cons_self x xs)
    have hxs : c ∉ xs := fun hm => h (List.mem_cons_of_mem _ hm)
    rw [pyFindAux_cons, if_neg hx, ih hxs]
    simp

/-- `pyFindAux` is -1 or non-negative. -/
theorem pyFindAux_neg_one_or_nonneg (c : Char) :
    ∀ l : List Char, pyFindAux c l = -1 ∨ 0 ≤ pyFindAux c l := by
  intro l
  induction l with
  | nil => exact Or.inl rfl
  | cons x xs ih =>
    by_cases hx : x = c
    · right
      rw [pyFindAux_cons, if_pos hx]
    · rcases ih with h | h
      · left
        rw [pyFindAux_cons, if_neg hx, if_pos h]
      · right
        have hne : pyFindAux c xs ≠ -1 := by omega
        rw [pyFindAux_cons, if_neg hx, if_neg hne]
        omega

/-- A present character makes `pyFindAux` return a non-negative index. -/
theorem pyFindAux_ne_neg_one {c : Char} :
    ∀ {l : List Char}, c ∈ l → pyFindAux c l ≠ -1 := by
  intro l
  induction l with
  | nil => intro h; simp at h
  | cons x xs ih =>
    intro h
    by_cases hx : x = c
    · rw [pyFindAux_cons, if_pos hx]
      decide
    · rcases List.mem_cons.mp h with rfl | h'
      · exact absurd rfl hx
      · have hne := ih h'
        rcases pyFindAux_neg_one_or_nonneg c xs with h0 | h0
        · exact absurd h0 hne
        · rw [pyFindAux_cons, if_neg hx, if_neg hne]
          omega

/-- Zeta-expanded form of `visionExtract`. -/
theorem visionExtract_eq (content : String) :
    visionExtract content =
      if pyFind '[' content.data ≠ -1 ∧ pyRFind ']' content.data + 1 ≠ -1 then
        some (String.mk (pySlice content.data (pyFind '[' content.data).toNat
          (pyRFind ']' content.data + 1).toNat))
      else none := rfl

/-- Zeta-expanded form of `pyRFind`. -/
theorem pyRFind_eq (c : Char) (s : List Char) :
    pyRFind c s =
      if pyFindAux c s.reverse = -1 then -1
      else (s.length : Int) - 1 - pyFindAux c s.reverse := rfl

/-- Rewriting `parse_vision_response` under a successful extraction. -/
theorem parse_vision_response_of_extract {content s : String}
    (hs : visionExtract content = some s) :
    parse_vision_response content =
      match jsonLoads s with
      | some (PyJson.arr detections) => (normalizeLoop detections).getD []
      | some _ => []
      | none => parse_text_response content := by
  unfold parse_vision_response
  rw [hs]

/-- Rewriting `parse_vision_response` under a failed extraction. -/
theorem parse_vision_response_of_extract_none {content : String}
    (hs : visionExtract content = none) :
    parse_vision_response content = parse_text_response content := by
  unfold parse_vision_response
  rw [hs]

/-- When no iteration raises, the normalization loop is the element-wise
filter-map of the per-element coercion. -/
theorem normalizeLoop_eq_filterMap :
    ∀ xs : List PyJson, (∀ j ∈ xs, normalizeElement j ≠ none) →
      normalizeLoop xs = some (xs.filterMap (fun j => (normalizeElement j).getD none)) := by
  intro xs
  induction xs with
  | nil => intro _; rfl
  | cons j js ih =>
    intro h
    have hj := h j (List.mem_cons_self j js)
    have hjs : ∀ j' ∈ js, normalizeElement j' ≠ none :=
      fun j' hm => h j' (List.mem_cons_of_mem _ hm)
    rcases he : normalizeElement j with - | od
    · exact absurd he hj
    · cases od with
      | none =>
        simp only [normalizeLoop, he, List.filterMap_cons, Option.getD_some]
        exact ih hjs
      | some d =>
        simp only [normalizeLoop, he, List.filterMap_cons, Option.getD_some, ih hjs]
        rfl

/-- A raised iteration aborts the whole normalization loop. -/
theorem normalizeLoop_abort :
    ∀ xs : List PyJson, (∃ j ∈ xs, normalizeElement j = none) → normalizeLoop xs = none := by
  intro xs
  induction xs with
  | nil => intro h; simp at h
  | cons j js ih =>
    intro h
    rcases he : normalizeElement j with - | od
    · simp only [normalizeLoop, he]
    · obtain ⟨j', hj', habort⟩ := h
      rcases List.mem_cons.mp hj' with rfl | hj''
      · rw [he] at habort; cases habort
      · have := ih ⟨j', hj'', habort⟩
        cases od with
        | none => simp only [normalizeLoop, he, this]
        | some d =>
          simp only [normalizeLoop, he, this]
          rfl

/-! ## Claim theorems -/

/-- Claim C1 (counterexample): a template-read failure does NOT fail fatally —
at this concrete input `generate_recipes_from_prompt` converts the
`FileNotFoundError` of `load_recipe_prompt` into a returned display string,
because the whole body runs inside its blanket `except Exception` handler. -/
theorem template_read_error_converted_cex :
    generate_recipes_from_prompt ["chicken"] "Comfort Food"
      (Except.error ⟨"[Errno 2] No such file or directory: 'prompts/recipe_prompt.txt'"⟩)
      (fun _ => Except.ok (some "two recipes")) =
      error_return_string
        ⟨"[Errno 2] No such file or directory: 'prompts/recipe_prompt.txt'"⟩ := rfl

/-- Claim C1 (amended): for every ingredient list and mood, a template-read
failure is caught inside `generate_recipes_from_prompt` and converted into
the formatted error display string; only `load_recipe_prompt` itself
re-raises, and its sole caller swallows the exception. -/
theorem template_read_error_caught (ingredients : List String) (mood : String)
    (e : PyErr) (chat_completion : String → Except PyErr (Option String)) :
    generate_recipes_from_prompt ingredients mood (Except.error e) chat_completion =
      error_return_string e := rfl

/-- Claim C3: the normalizer totalizes its failure modes — the fallback text
parser returns nothing, a missing bracket (either one) yields `[]`, and a
JSON-parse failure of the extracted slice yields `[]`.  Never raising is
modelled by `parse_vision_response` being a total function into lists. -/
theorem parse_vision_failures_empty (content : String) :
    parse_text_response content = [] ∧
    (('[' ∉ content.data ∨ ']' ∉ content.data) → parse_vision_response content = []) ∧
    (∀ s, visionExtract content = some s → jsonLoads s = none →
      parse_vision_response content = []) := by
  refine ⟨rfl, ?_, ?_⟩
  · intro h
    by_cases hb : '[' ∈ content.data
    · have hr : ']' ∉ content.data := h.resolve_left (fun hc => hc hb)
      have h1 : pyFind '[' content.data ≠ -1 := pyFindAux_ne_neg_one hb
      have h2 : pyFindAux ']' content.data.reverse = -1 :=
        pyFindAux_eq_neg_one (fun hm => hr (List.mem_reverse.mp hm))
      have hv : visionExtract content = some "" := by
        rw [visionExtract_eq, pyRFind_eq, if_pos h2]
        rw [if_pos ⟨h1, by decide⟩]
        have : pySlice content.data (pyFind '[' content.data).toNat
            ((-1 : Int) + 1).toNat = [] := by
          show (content.data.take ((-1 : Int) + 1).toNat).drop _ = []
          norm_num [List.drop_nil]
        rw [this]
      rw [parse_vision_response_of_extract hv]
      rfl
    · have h1 : pyFind '[' content.data = -1 := pyFindAux_eq_neg_one hb
      have hv : visionExtract content = none := by
        rw [visionExtract_eq, if_neg]
        intro hc
        exact hc.1 h1
      rw [parse_vision_response_of_extract_none hv]
      rfl
  · intro s hs hnone
    rw [parse_vision_response_of_extract hs, hnone]
    rfl

/-- Claim C3 (witness): a bracket-free prose response and a response whose
slice fails to parse both normalize to the empty list. -/
theorem parse_vision_failures_empty_witness :
    parse_vision_response "I see an apple and a banana." = [] ∧
    parse_vision_response "[oops" = [] :=
  ⟨(parse_vision_failures_empty "I see an apple and a banana.").2.1 (Or.inl (by decide)),
   (parse_vision_failures_empty "[oops").2.2 "" (by decide) rfl⟩

/-- Claim C4: the confidence filter keeps exactly the detections whose
confidence (0 when the key is absent) is at least the threshold, with
multiplicity, and it is a sublist of the input, so the relative order of the
retained detections is preserved; this holds for every caller-supplied
threshold, in particular 0, 0.4 and 1. -/
theorem confidence_filter_exact (detections : List PyDetection) (threshold : ℚ) :
    List.Sublist (filter_by_confidence detections threshold) detections ∧
    ∀ d : PyDetection,
      (filter_by_confidence detections threshold).count d =
        if d.confidence.getD 0 ≥ threshold then detections.count d else 0 := by
  constructor
  · exact List.filter_sublist detections
  · intro d
    by_cases h : d.confidence.getD 0 ≥ threshold
    · rw [if_pos h]
      exact List.count_filter (by simpa using h)
    · rw [if_neg h]
      refine List.count_eq_zero.mpr ?_
      intro hmem
      have h2 := (List.mem_filter.mp hmem).2
      simp only [decide_eq_true_eq] at h2
      exact h h2

/-- Claim C10: the detection entry point truncates the ranker's output to its
first 10 entries, so it returns at most 10 ingredient names for every vision
outcome. -/
theorem detect_objects_caps_at_ten (vision_response : Except PyErr String) :
    (detect_objects_detectron2 vision_response).length ≤ 10 ∧
    detect_objects_detectron2 vision_response =
      (get_ingredient_suggestions
        (detect_grocery_items vision_response default_confidence_threshold)).take 10 :=
  ⟨List.length_take_le _ _, rfl⟩

/-- Claim C9: on the scenario-1 response text (prose, a literal backslash-n,
then the JSON array), the normalizer yields exactly one detection named
"Red Bell Pepper" with confidence 0.9, the 0.4-filter keeps it, the ranker
returns exactly ["red bell pepper"], and the synonym table does not fire on
that full string. -/
theorem scenario_red_bell_pepper :
    parse_vision_response
      "Here are the items:\\n[\x7b\"name\":\"Red Bell Pepper\",\"confidence\":0.9,\"category\":\"vegetable\",\"description\":\"a pepper\"\x7d]" =
      [⟨some "Red Bell Pepper", some (mkRat 9 10), some "vegetable", some "a pepper"⟩] ∧
    filter_by_confidence
      [⟨some "Red Bell Pepper", some (mkRat 9 10), some "vegetable", some "a pepper"⟩]
      default_confidence_threshold =
      [⟨some "Red Bell Pepper", some (mkRat 9 10), some "vegetable", some "a pepper"⟩] ∧
    get_ingredient_suggestions
      [⟨some "Red Bell Pepper", some (mkRat 9 10), some "vegetable", some "a pepper"⟩] =
      ["red bell pepper"] ∧
    normalize_ingredient_name "red bell pepper" = "red bell pepper" ∧
    apply_ingredient_mappings "red bell pepper" = "red bell pepper" := by
  refine ⟨by decide, by decide, by decide, by decide, by decide⟩

/-- Claim C2 (counterexample): on this concrete response the extracted slice
parses as a JSON array whose only element is a dict with a `name` key, so
under the claim the element survives and is coerced to a record; but its
present `confidence` is `null`, `float(None)` raises, and the whole parse
returns `[]` instead. -/
theorem parse_vision_abort_cex :
    visionExtract "[\x7b\"name\":\"apple\",\"confidence\":null\x7d]" =
      some "[\x7b\"name\":\"apple\",\"confidence\":null\x7d]" ∧
    jsonLoads "[\x7b\"name\":\"apple\",\"confidence\":null\x7d]" =
      some (PyJson.arr
        [PyJson.obj [("name", PyJson.str "apple"), ("confidence", PyJson.null)]]) ∧
    dictGet [("name", PyJson.str "apple"), ("confidence", PyJson.null)] "name" =
      some (PyJson.str "apple") ∧
    parse_vision_response "[\x7b\"name\":\"apple\",\"confidence\":null\x7d]" = [] :=
  ⟨by decide, rfl, rfl, by decide⟩

/-- Claim C2 (amended): when the first-`[`-to-last-`]` slice parses as a JSON
array, then — provided no element makes the coercion raise — the result is
the element-wise coercion: non-dicts and dicts without a `name` key are
dropped, and survivors are coerced with defaults confidence 0.5, category
"other", description = name; if any element makes `float()` raise on a
present non-coercible confidence, the entire function returns `[]`. -/
theorem parse_vision_normalization (content s : String) (xs : List PyJson)
    (hs : visionExtract content = some s)
    (hj : jsonLoads s = some (PyJson.arr xs)) :
    ((∀ j ∈ xs, normalizeElement j ≠ none) →
      parse_vision_response content =
        xs.filterMap (fun j => (normalizeElement j).getD none)) ∧
    ((∃ j ∈ xs, normalizeElement j = none) → parse_vision_response content = []) ∧
    (∀ (fields : List (String × PyJson)) (nm : String),
      dictGet fields "name" = some (PyJson.str nm) →
      dictGet fields "confidence" = none →
      dictGet fields "category" = none →
      dictGet fields "description" = none →
      normalizeElement (PyJson.obj fields) =
        some (some ⟨some nm, some (mkRat 1 2), some "other", some nm⟩)) ∧
    (∀ fields : List (String × PyJson), dictGet fields "name" = none →
      normalizeElement (PyJson.obj fields) = some none) := by
  refine ⟨?_, ?_, ?_, ?_⟩
  · intro hok
    rw [parse_vision_response_of_extract hs, hj]
    show (normalizeLoop xs).getD [] = _
    rw [normalizeLoop_eq_filterMap xs hok]
    rfl
  · intro habort
    rw [parse_vision_response_of_extract hs, hj]
    show (normalizeLoop xs).getD [] = _
    rw [normalizeLoop_abort xs habort]
    rfl
  · intro fields nm hname hconf hcat hdesc
    simp only [normalizeElement, getStrField, hname, hconf, hcat, hdesc]
    rfl
  · intro fields hname
    simp only [normalizeElement, hname]

/-- Claim C2 (witness): a two-element array with one name-less element and
one minimal named element coerces element-wise, and the null-confidence
response from the counterexample aborts to `[]`. -/
theorem parse_vision_normalization_witness :
    parse_vision_response "[\x7b\"name\":\"kale\"\x7d, 3]" =
      [⟨some "kale", some (mkRat 1 2), some "other", some "kale"⟩] ∧
    parse_vision_response "[\x7b\"name\":\"apple\",\"confidence\":null\x7d]" = [] := by
  constructor
  · rw [(parse_vision_normalization "[\x7b\"name\":\"kale\"\x7d, 3]"
        "[\x7b\"name\":\"kale\"\x7d, 3]"
        [PyJson.obj [("name", PyJson.str "kale")], PyJson.num 3]
        (by decide) rfl).1 ?_]
    · decide
    · intro j hj
      rcases List.mem_cons.mp hj with rfl | hj2
      · decide
      · rcases List.mem_cons.mp hj2 with rfl | hj3
        · decide
        · simp at hj3
  · exact (parse_vision_normalization "[\x7b\"name\":\"apple\",\"confidence\":null\x7d]"
      "[\x7b\"name\":\"apple\",\"confidence\":null\x7d]"
      [PyJson.obj [("name", PyJson.str "apple"), ("confidence", PyJson.null)]]
      (by decide) rfl).2.1
      ⟨PyJson.obj [("name", PyJson.str "apple"), ("confidence", PyJson.null)],
        List.mem_cons_self _ _, rfl⟩

/-- Claim C8 (counterexample): on success the collaborator's text is
whitespace-stripped before the header is prefixed, so the returned string is
not the raw text with the header: at this concrete input the raw text
" A recipe. " comes back as "A recipe.". -/
theorem generate_recipes_strips_cex :
    generate_recipes_from_prompt ["chicken"] "Comfort Food"
      (Except.ok "Use \x7bingredients\x7d for \x7bmood\x7d.")
      (fun _ => Except.ok (some " A recipe. ")) = recipes_header ++ "A recipe." ∧
    recipes_header ++ "A recipe." ≠ recipes_header ++ " A recipe. " := by
  exact ⟨by decide, by decide⟩

/-- Claim C8 (amended): for every ingredient list and mood,
`generate_recipes_from_prompt` always returns a displayable string: on
success it returns the collaborator's text, stripped of surrounding
whitespace (an absent content counts as ""), prefixed with the fixed header
and a blank line; on any collaborator failure it returns the formatted error
string instead of raising. -/
theorem generate_recipes_shape (ingredients : List String) (mood : String)
    (tmpl prompt : String) (chat : String → Except PyErr (Option String))
    (hfmt : pyFormat tmpl (String.intercalate ", " ingredients) mood = some prompt) :
    (∀ content : Option String, chat prompt = Except.ok content →
      generate_recipes_from_prompt ingredients mood (Except.ok tmpl) chat =
        recipes_header ++ pyStrip (content.getD "")) ∧
    (∀ e : PyErr, chat prompt = Except.error e →
      generate_recipes_from_prompt ingredients mood (Except.ok tmpl) chat =
        error_return_string e) := by
  constructor
  · intro content hc
    simp only [generate_recipes_from_prompt, hfmt, hc]
  · intro e hc
    simp only [generate_recipes_from_prompt, hfmt, hc]

/-- Claim C8 (witness): a concrete success returns the stripped text behind
the header, and a concrete collaborator failure returns the formatted error
string. -/
theorem generate_recipes_shape_witness :
    generate_recipes_from_prompt ["chicken", "cheese", "onions"] "Quick & Easy"
      (Except.ok "Use \x7bingredients\x7d in mood \x7bmood\x7d.")
      (fun _ => Except.ok (some "  recipes text ")) =
      recipes_header ++ pyStrip ((some "  recipes text " : Option String).getD "") ∧
    generate_recipes_from_prompt ["chicken"] "Comfort Food" (Except.ok "\x7bmood\x7d")
      (fun _ => Except.error ⟨"RateLimitError"⟩) =
      error_return_string ⟨"RateLimitError"⟩ :=
  ⟨(generate_recipes_shape ["chicken", "cheese", "onions"] "Quick & Easy"
      "Use \x7bingredients\x7d in mood \x7bmood\x7d."
      "Use chicken, cheese, onions in mood Quick & Easy." _ (by decide)).1
      (some "  recipes text ") rfl,
   (generate_recipes_shape ["chicken"] "Comfort Food" "\x7bmood\x7d"
      "Comfort Food" _ (by decide)).2 ⟨"RateLimitError"⟩ rfl⟩

/-- Equal priorities are related by the sort order. -/
theorem priorityLe_of_eq {a b : String}
    (h : get_ingredient_priority a = get_ingredient_priority b) : priorityLe a b :=
  le_of_eq h

/-- Unfolding equation of `get_ingredient_suggestions`. -/
theorem get_ingredient_suggestions_eq (detections : List PyDetection) :
    get_ingredient_suggestions detections =
      if detections.isEmpty then []
      else ((suggestLoop detections []).insertionSort priorityLe).take 15 := rfl

/-- Every suggested name already appears in the accumulation loop's output. -/
theorem suggestions_subset_loop {detections : List PyDetection} {x : String}
    (hx : x ∈ get_ingredient_suggestions detections) : x ∈ suggestLoop detections [] := by
  rw [get_ingredient_suggestions_eq] at hx
  by_cases he : detections.isEmpty = true
  · rw [if_pos he] at hx
    simp at hx
  · rw [if_neg he] at hx
    have h1 := (List.take_sublist 15 _).subset hx
    exact (List.perm_insertionSort priorityLe _).mem_iff.mp h1

/-- The suggestions list has no duplicates. -/
theorem suggestions_nodup (detections : List PyDetection) :
    (get_ingredient_suggestions detections).Nodup := by
  rw [get_ingredient_suggestions_eq]
  by_cases he : detections.isEmpty = true
  · rw [if_pos he]
    exact List.nodup_nil
  · rw [if_neg he]
    have hnd := (suggestLoop_nodup_aux detections []).1
    have hs : ((suggestLoop detections []).insertionSort priorityLe).Nodup :=
      ((List.perm_insertionSort priorityLe _).nodup_iff).mpr hnd
    exact hs.sublist (List.take_sublist 15 _)

/-- Every suggested name is a fixed point of lowercasing. -/
theorem suggestions_lower_fixed {detections : List PyDetection} {x : String}
    (hx : x ∈ get_ingredient_suggestions detections) : pyLower x = x := by
  obtain ⟨d, -, he, -⟩ := suggestLoop_mem detections [] x (suggestions_subset_loop hx)
  rw [he]
  exact normalize_lower_fixed _

/-- Claim C5: the ranker returns at most 15 names, and no two returned names
are equal even after lowercasing both (so also not equal verbatim). -/
theorem ranker_bounded_and_distinct (detections : List PyDetection) :
    (get_ingredient_suggestions detections).length ≤ 15 ∧
    ((get_ingredient_suggestions detections).map pyLower).Nodup := by
  constructor
  · rw [get_ingredient_suggestions_eq]
    by_cases he : detections.isEmpty = true
    · rw [if_pos he]
      simp
    · rw [if_neg he]
      exact List.length_take_le 15 _
  · exact (suggestions_nodup detections).map_on
      (fun x hx y hy hxy =>
        (suggestions_lower_fixed hx).symm.trans (hxy.trans (suggestions_lower_fixed hy)))

/-- Claim C6: ties in the three-tier priority sort are never reordered — for
two distinct output names of equal priority, the pair order in the output
equals the pair order in the deduplicated pre-sort list. -/
theorem ranker_sort_stable (detections : List PyDetection) (a b : String)
    (hne : a ≠ b) (ha : a ∈ get_ingredient_suggestions detections)
    (hb : b ∈ get_ingredient_suggestions detections)
    (hpri : get_ingredient_priority a = get_ingredient_priority b) :
    (List.Sublist [a, b] (suggestLoop detections []) ↔
      List.Sublist [a, b] (get_ingredient_suggestions detections)) := by
  rw [get_ingredient_suggestions_eq] at ha hb ⊢
  by_cases he : detections.isEmpty = true
  · rw [if_pos he] at ha
    simp at ha
  · rw [if_neg he] at ha hb ⊢
    have hperm : List.Perm ((suggestLoop detections []).insertionSort priorityLe)
        (suggestLoop detections []) := List.perm_insertionSort priorityLe _
    have hLnd : (suggestLoop detections []).Nodup := (suggestLoop_nodup_aux detections []).1
    have hSnd : ((suggestLoop detections []).insertionSort priorityLe).Nodup :=
      hperm.nodup_iff.mpr hLnd
    have haS : a ∈ (suggestLoop detections []).insertionSort priorityLe :=
      (List.take_sublist 15 _).subset ha
    have hbS : b ∈ (suggestLoop detections []).insertionSort priorityLe :=
      (List.take_sublist 15 _).subset hb
    have haL : a ∈ suggestLoop detections [] := hperm.mem_iff.mp haS
    have hbL : b ∈ suggestLoop detections [] := hperm.mem_iff.mp hbS
    constructor
    · intro h
      have hS2 : List.Sublist [a, b] ((suggestLoop detections []).insertionSort priorityLe) :=
        List.pair_sublist_insertionSort (priorityLe_of_eq hpri) h
      rcases pair_sublist_total ha hb hne with h2 | h2
      · exact h2
      · exact absurd
          (pair_sublist_antisymm hSnd hS2 (h2.trans (List.take_sublist 15 _))) hne
    · intro h
      have hS2 : List.Sublist [a, b] ((suggestLoop detections []).insertionSort priorityLe) :=
        h.trans (List.take_sublist 15 _)
      rcases pair_sublist_total haL hbL hne with h2 | h2
      · exact h2
      · have hS3 : List.Sublist [b, a] ((suggestLoop detections []).insertionSort priorityLe) :=
          List.pair_sublist_insertionSort (priorityLe_of_eq hpri.symm) h2
        exact absurd (pair_sublist_antisymm hSnd hS2 hS3) hne

/-- Claim C6 (witness): two tier-3 detections keep their input order through
the ranker. -/
theorem ranker_sort_stable_witness :
    List.Sublist ["kale", "zucchini"]
      (suggestLoop [⟨some "Kale", some 1, some "vegetable", none⟩,
        ⟨some "Zucchini", some 1, some "vegetable", none⟩] []) ↔
    List.Sublist ["kale", "zucchini"]
      (get_ingredient_suggestions [⟨some "Kale", some 1, some "vegetable", none⟩,
        ⟨some "Zucchini", some 1, some "vegetable", none⟩]) :=
  ranker_sort_stable
    [⟨some "Kale", some 1, some "vegetable", none⟩,
      ⟨some "Zucchini", some 1, some "vegetable", none⟩]
    "kale" "zucchini" (by decide) (by decide) (by decide) (by decide)

/-- Claim C7 (counterexample): a detection whose category is capitalized
("Vegetable") is not a member of the lowercase allowlist and its name carries
no food substring, yet its name is suggested — the code compares the
lowercased category, so the claim's origination condition fails as stated. -/
theorem ranker_allowlist_cex :
    get_ingredient_suggestions [⟨some "zucchini", some (mkRat 4 5), some "Vegetable", some "z"⟩] =
      ["zucchini"] ∧
    "Vegetable" ∉ food_categories ∧
    food_substrings.all (fun w => !(containsSub w.data "zucchini".data)) = true := by
  exact ⟨by decide, by decide, by decide⟩

/-- Claim C7 (amended): every suggested name has length at least 2, is
lowercase, and originates from a detection — as the normalization of its
lowercased, stripped name — whose LOWERCASED category is in the
food-category allowlist or whose normalized name contains one of the fixed
food substrings. -/
theorem ranker_output_wellformed (detections : List PyDetection) :
    ∀ x ∈ get_ingredient_suggestions detections,
      2 ≤ x.length ∧ pyLower x = x ∧
      ∃ d ∈ detections,
        x = normalize_ingredient_name (pyStrip (pyLower (d.name.getD ""))) ∧
        (pyLower (d.category.getD "other") ∈ food_categories ∨
          ∃ w ∈ food_substrings, containsSub w.data x.data = true) := by
  intro x hx
  obtain ⟨d, hd, he, hv⟩ := suggestLoop_mem detections [] x (suggestions_subset_loop hx)
  have hlen : ¬ x.length < 2 := by
    intro hlt
    rw [is_valid_ingredient, if_pos hlt] at hv
    cases hv
  have hor : pyLower (d.category.getD "other") ∈ food_categories ∨
      ∃ w ∈ food_substrings, containsSub w.data x.data = true := by
    rw [is_valid_ingredient, if_neg hlen] at hv
    by_cases hinv : x ∈ invalid_terms
    · rw [if_pos hinv] at hv
      cases hv
    · rw [if_neg hinv] at hv
      simp only [Bool.or_eq_true] at hv
      rcases hv with h | h
      · exact Or.inl (of_decide_eq_true h)
      · exact Or.inr (by simpa using List.any_eq_true.mp h)
  exact ⟨by omega, suggestions_lower_fixed hx, d, hd, he, hor⟩

/-- Claim C7 (witness): the stop-word-stripped "Fresh Garlic" detection
yields the well-formed suggestion "garlic". -/
theorem ranker_output_wellformed_witness :
    2 ≤ "garlic".length ∧ pyLower "garlic" = "garlic" ∧
    ∃ d ∈ [(⟨some "Fresh Garlic", some 1, some "vegetable", none⟩ : PyDetection)],
      "garlic" = normalize_ingredient_name (pyStrip (pyLower (d.name.getD ""))) ∧
      (pyLower (d.category.getD "other") ∈ food_categories ∨
        ∃ w ∈ food_substrings, containsSub w.data "garlic".data = true) :=
  ranker_output_wellformed
    [⟨some "Fresh Garlic", some 1, some "vegetable", none⟩] "garlic" (by decide)
